import Mathlib

/-!
Shallow embedding of the retrieval-augmented conversation pipeline of the
AgenteHR repository: the simple per-session memory (`memory/simple_memory.py`),
the LangChain conversation memory's stats shape (`memory/conversation_memory.py`),
the Azure search client and its context budgeter (`tools/azure_search.py`),
the local vector/keyword retrieval (`tools/vector_search.py`),
the file store (`tools/file_processor.py`), the agents
(`agents/tv_agent.py`, `agents/hr_agent.py`) and the HTTP chat boundary
(`app.py`).

Python strings are modelled as Lean `String` (a wrapper around `List Char`,
i.e. a sequence of code points, matching Python's `str`); Python string
primitives (`strip`, `lower`, `split`, slicing, `in`, `startswith`) are
modelled by executable functions on the underlying char list so that every
definition evaluates inside the kernel.  Python dictionaries keyed by strings
are modelled as functions `String → Option _`; JSON-ish records coming back
from the remote search service are modelled as association lists.  Fallible
Python code is modelled with `Except String _`, the exception message being
the payload of `str(e)`.  Floating point relevance scores coming back from
the external services are abstracted to `Nat`: no verified claim compares or
computes with them.
-/

namespace AgenteHR

/-- Python's whitespace set for `str.strip` / `str.split()` (space, tab,
newline, carriage return, vertical tab, form feed). -/
def isSpaceChar (c : Char) : Bool :=
  c == ' ' || c == '\t' || c == '\n' || c == '\r' || c == '\x0b' || c == '\x0c'

/-- Model of Python `s.strip()`: removes leading and trailing whitespace. -/
def pyStrip (s : String) : String :=
  ⟨((s.data.dropWhile isSpaceChar).reverse.dropWhile isSpaceChar).reverse⟩

/-- ASCII lowering of one character, modelling Python `str.lower` on the
ASCII range (the sources only ever compare ASCII keywords). -/
def toLowerChar (c : Char) : Char :=
  if 65 ≤ c.toNat ∧ c.toNat ≤ 90 then Char.ofNat (c.toNat + 32) else c

/-- Model of Python `s.lower()`. -/
def pyLower (s : String) : String := ⟨s.data.map toLowerChar⟩

/-- Helper for `pySplitWs`: accumulates the current word (reversed). -/
def splitWsAux : List Char → List Char → List String
  | [], cur => if cur = [] then [] else [⟨cur.reverse⟩]
  | c :: rest, cur =>
    if isSpaceChar c then
      (if cur = [] then splitWsAux rest [] else ⟨cur.reverse⟩ :: splitWsAux rest [])
    else splitWsAux rest (c :: cur)

/-- Model of Python `s.split()` (no argument): splits on whitespace runs and
produces no empty words. -/
def pySplitWs (s : String) : List String := splitWsAux s.data []

/-- Model of Python slicing `s[:n]` (by code points). -/
def strTake (s : String) (n : Nat) : String := ⟨s.data.take n⟩

/-- Model of Python slicing `s[n:]` (by code points). -/
def strDrop (s : String) (n : Nat) : String := ⟨s.data.drop n⟩

/-- List-level "p is an initial segment of l" check. -/
def isPre : List Char → List Char → Bool
  | [], _ => true
  | _ :: _, [] => false
  | a :: ps, b :: ls => a == b && isPre ps ls

/-- Model of Python `s.startswith(p)`. -/
def strStarts (s p : String) : Bool := isPre p.data s.data

/-- List-level substring check: does `needle` occur contiguously in the list? -/
def listHas (needle : List Char) : List Char → Bool
  | [] => isPre needle []
  | c :: rest => isPre needle (c :: rest) || listHas needle rest

/-- Model of Python `needle in hay` on strings. -/
def strHas (hay needle : String) : Bool := listHas needle.data hay.data

/-- Model of Python `"\n".join(parts)`. -/
def joinNL : List String → String
  | [] => ""
  | [p] => p
  | p :: q :: rest => p ++ "\n" ++ joinNL (q :: rest)

/-! ## SimpleMemoryManager (`memory/simple_memory.py`)

`self.sessions` is a dict from session id to a list of message entries; the
dict is modelled as `String → Option (List Entry)` so that an absent session
(never created) is distinguishable from a cleared/empty one. -/

/-- One entry of `SimpleMemoryManager.sessions[sid]`:
`{'human': ..., 'ai': ..., 'timestamp': ...}`. -/
structure Entry where
  human : String
  ai : String
  timestamp : String
  deriving DecidableEq

/-- The `SimpleMemoryManager.sessions` dictionary. -/
def MemStore : Type := String → Option (List Entry)

/-- The freshly constructed manager: `self.sessions = {}`. -/
def emptyMemStore : MemStore := fun _ => none

/-- `SimpleMemoryManager.add_message`: lazily creates the session, appends the
entry, and keeps only the last 10 entries when the list exceeds 10.
The timestamp (`datetime.now().isoformat()`) is passed in as a parameter. -/
def add_message (st : MemStore) (sid human ai ts : String) : MemStore :=
  fun s =>
    if s = sid then
      let l := ((st sid).getD []) ++ [⟨human, ai, ts⟩]
      some (if l.length > 10 then l.drop (l.length - 10) else l)
    else st s

/-- `SimpleMemoryManager.get_conversation_history`:
`self.sessions.get(session_id, [])`. -/
def get_conversation_history (st : MemStore) (sid : String) : List Entry :=
  (st sid).getD []

/-- A sequence of `add_message` calls on one session, each given as
`(human, ai, timestamp)`. -/
def runAdds (st : MemStore) (sid : String) (msgs : List (String × String × String)) :
    MemStore :=
  msgs.foldl (fun s m => add_message s sid m.1 m.2.1 m.2.2) st

/-- The entries those calls insert, in call order. -/
def entriesOf (msgs : List (String × String × String)) : List Entry :=
  msgs.map (fun m => Entry.mk m.1 m.2.1 m.2.2)

/-- `SimpleMemoryManager.clear_session`: deletes the key if present. -/
def clear_session (st : MemStore) (sid : String) : MemStore :=
  fun s => if s = sid then none else st s

/-- The stats record shapes returned by the two memory managers and hence by
the agents' `get_conversation_stats`.  `existsFalse` is the
`{"exists": False}` shape of `ConversationMemoryManager.get_session_info`;
`simpleInfo` is the `{'session_id', 'message_count', 'last_activity',
'created'}` shape of `SimpleMemoryManager.get_session_info`; `convInfo` is the
`{"exists": True, ...}` shape of `ConversationMemoryManager`. -/
inductive StatsRecord where
  | existsFalse
  | simpleInfo (session_id : String) (message_count : Nat)
      (last_activity created : Option String)
  | convInfo (last_activity : String) (message_count : Nat) (has_summary : Bool)
  deriving DecidableEq

/-- `SimpleMemoryManager.get_session_info`: always returns the
`simpleInfo` record built from the (possibly empty) history. -/
def get_session_info (st : MemStore) (sid : String) : StatsRecord :=
  let h := get_conversation_history st sid
  .simpleInfo sid h.length ((h.getLast?).map Entry.timestamp)
    ((h.head?).map Entry.timestamp)

/-! ## ConversationMemoryManager stats shape (`memory/conversation_memory.py`)

Only `get_session_info` is needed by the claims.  A live session is modelled
by its chat-history length, last-activity timestamp and summary buffer. -/

/-- State held for one session by `ConversationMemoryManager`. -/
structure ConvSession where
  historyLen : Nat
  lastActivity : String
  movingSummary : String
  deriving DecidableEq

/-- The `ConversationMemoryManager.active_memories` dictionary. -/
def ConvStore : Type := String → Option ConvSession

/-- `ConversationMemoryManager.get_session_info`: `{"exists": False}` when the
session id is not in `active_memories`, otherwise the populated record. -/
def conv_get_session_info (st : ConvStore) (sid : String) : StatsRecord :=
  match st sid with
  | none => .existsFalse
  | some cs => .convInfo cs.lastActivity cs.historyLen (cs.movingSummary ≠ "")

/-- `TVAgent.get_conversation_stats`: delegates to
`SimpleMemoryManager.get_session_info` (the TV agent's `memory_manager` is a
`SimpleMemoryManager`). -/
def tv_get_conversation_stats (st : MemStore) (sid : String) : StatsRecord :=
  get_session_info st sid

/-- `HRAgentSimple.get_conversation_stats`: also delegates to
`SimpleMemoryManager.get_session_info`. -/
def hr_get_conversation_stats (st : MemStore) (sid : String) : StatsRecord :=
  get_session_info st sid

/-! ## Local documents and keyword fallback search
(`tools/vector_search.py`, `VectorDocumentSearch._keyword_search`) -/

/-- A document loaded by `VectorDocumentSearch.load_documents`: the
`page_content` plus the metadata fields it carries. -/
structure KDoc where
  page_content : String
  title : String
  source : String
  dtype : String
  category : String
  deriving DecidableEq

/-- A retrieval result dict with keys
`content, score, title, source, type, category` (the `metadata` bag is the
originating document / raw record and is not modelled separately).  Scores
are `Nat`: keyword scores are integer counts, and the float scores of the
external backends are abstracted. -/
structure RDoc where
  content : String
  score : Nat
  title : String
  source : String
  dtype : String
  category : String
  deriving DecidableEq

/-- Size of the set intersection `len(set(qws) & set(ws))`: the number of
distinct words of `qws` that also occur in `ws`. -/
def interCount (qws ws : List String) : Nat :=
  (qws.dedup.filter (fun w => ws.contains w)).length

/-- The keyword score of a document for a query:
`len(query_words & content_words) + 2 * len(query_words & title_words)`
where each word set is `set(text.lower().split())`. -/
def keywordScore (query : String) (d : KDoc) : Nat :=
  interCount (pySplitWs (pyLower query)) (pySplitWs (pyLower d.page_content))
    + 2 * interCount (pySplitWs (pyLower query)) (pySplitWs (pyLower d.title))

/-- The result dict `_keyword_search` builds for one document. -/
def mkScored (query : String) (d : KDoc) : RDoc :=
  ⟨d.page_content, keywordScore query d, d.title, d.source, d.dtype, d.category⟩

/-- The `scored_docs` list before sorting: documents with score 0 are skipped,
original order preserved. -/
def scoredList (query : String) (docs : List KDoc) : List RDoc :=
  (docs.filter (fun d => keywordScore query d > 0)).map (mkScored query)

/-- Stable insertion step for descending-by-score order: the new element goes
after every element with a strictly larger score and before the first element
with an equal or smaller one.  Combined with `sortDesc` this computes exactly
what Python's stable `list.sort(key=score, reverse=True)` produces. -/
def insertDesc (x : RDoc) : List RDoc → List RDoc
  | [] => [x]
  | y :: ys => if y.score > x.score then y :: insertDesc x ys else x :: y :: ys

/-- Stable descending sort by score, modelling
`scored_docs.sort(key=lambda x: x['score'], reverse=True)`. -/
def sortDesc : List RDoc → List RDoc
  | [] => []
  | x :: xs => insertDesc x (sortDesc xs)

/-- `VectorDocumentSearch._keyword_search` on an explicit document list (the
Python method obtains `documents` from `load_documents()`): empty documents
give `[]`; otherwise score, drop zero scores, sort descending (stable) and
truncate to `k`. -/
def keyword_search (query : String) (docs : List KDoc) (k : Nat) : List RDoc :=
  if docs = [] then [] else (sortDesc (scoredList query docs)).take k

/-! ## Context assembly (`get_context` in `tools/azure_search.py` and
`tools/vector_search.py`) -/

/-- A snippet as consumed by `get_context`: only `content` and `title` are
read. -/
structure Snippet where
  content : String
  title : String
  deriving DecidableEq

/-- The chunk format of both `get_context` implementations:
`f"**{title}**\n{content}\n"` when the title is non-empty (truthy), else
`f"{content}\n"`. -/
def formatChunk (title content : String) : String :=
  if title ≠ "" then "**" ++ title ++ "**\n" ++ content ++ "\n" else content ++ "\n"

/-- Loop of `AzureSearchClient.get_context`: `parts`/`length` are the Python
accumulator variables.  A snippet whose stripped content is empty is skipped
(`continue`); a chunk that fits is appended and counted; otherwise, when more
than 100 units of budget remain, a truncated chunk ending in `"..."` is
appended, and the loop breaks. -/
def azure_context_loop (maxLength : Nat) :
    List Snippet → List String → Nat → List String
  | [], parts, _ => parts
  | r :: rest, parts, length =>
    let content := pyStrip r.content
    if content = "" then azure_context_loop maxLength rest parts length
    else
      let chunk := formatChunk r.title content
      if length + chunk.length ≤ maxLength then
        azure_context_loop maxLength rest (parts ++ [chunk]) (length + chunk.length)
      else if maxLength - length > 100 then
        parts ++ [strTake chunk (maxLength - length - 3) ++ "..."]
      else parts

/-- `AzureSearchClient.get_context`: returns `""` for an empty result list,
else the `"\n".join` of the accumulated parts. -/
def azure_get_context (results : List Snippet) (maxLength : Nat) : String :=
  if results = [] then "" else joinNL (azure_context_loop maxLength results [] 0)

/-- Loop of `VectorDocumentSearch.get_context`: identical to the Azure one
except that an empty-content snippet is not skipped (its chunk is just
`"\n"`). -/
def vector_context_loop (maxLength : Nat) :
    List Snippet → List String → Nat → List String
  | [], parts, _ => parts
  | r :: rest, parts, length =>
    let content := pyStrip r.content
    let chunk := formatChunk r.title content
    if length + chunk.length ≤ maxLength then
      vector_context_loop maxLength rest (parts ++ [chunk]) (length + chunk.length)
    else if maxLength - length > 100 then
      parts ++ [strTake chunk (maxLength - length - 3) ++ "..."]
    else parts

/-- `VectorDocumentSearch.get_context`. -/
def vector_get_context (results : List Snippet) (maxLength : Nat) : String :=
  if results = [] then "" else joinNL (vector_context_loop maxLength results [] 0)

/-! ## Remote search (`tools/azure_search.py`, `AzureSearchClient.search`) -/

/-- A JSON-ish field value in a raw record returned by the remote search
service.  Numbers are abstracted to `Nat` (scores are never computed with). -/
inductive JVal where
  | str (s : String)
  | num (n : Nat)
  | other
  deriving DecidableEq

/-- A raw record of the remote response, as an association list of fields. -/
abbrev RawDoc : Type := List (String × JVal)

/-- Field lookup, modelling `field in doc and doc[field]`. -/
def getField (d : RawDoc) (name : String) : Option JVal :=
  (d.find? (fun p => p.1 = name)).map Prod.snd

/-- `AzureSearchClient._choose_field`: first candidate whose value is a
non-empty (after strip) string; `""` when none matches. -/
def choose_field (d : RawDoc) : List String → String
  | [] => ""
  | c :: cs =>
    match getField d c with
    | some (.str s) => if pyStrip s ≠ "" then s else choose_field d cs
    | _ => choose_field d cs

def CONTENT_FIELD_CANDIDATES : List String :=
  ["content", "content_text", "chunk", "text", "body", "page_content"]

def TITLE_FIELD_CANDIDATES : List String :=
  ["title", "document_title", "name", "heading"]

def TYPE_FIELD_CANDIDATES : List String :=
  ["type", "category", "doc_type"]

/-- The score extraction
`r.get("@search.score") or r.get("searchScore") or 0.0` (abstracted). -/
def rawScore (r : RawDoc) : Nat :=
  match getField r "@search.score" with
  | some (.num n) => n
  | _ =>
    match getField r "searchScore" with
    | some (.num n) => n
    | _ => 0

/-- The canonical result dict the Azure client builds from one raw record. -/
def mapRaw (indexName : String) (r : RawDoc) : RDoc :=
  { content := choose_field r CONTENT_FIELD_CANDIDATES
    score := rawScore r
    title := choose_field r TITLE_FIELD_CANDIDATES
    source :=
      (match getField r "source" with
       | some (.str s) => if s ≠ "" then some s else none
       | _ => none).getD
        ((match getField r "id" with
          | some (.str s) => if s ≠ "" then some s else none
          | _ => none).getD indexName)
    dtype := choose_field r TYPE_FIELD_CANDIDATES
    category :=
      match getField r "category" with
      | some (.str s) => s
      | _ => "" }

/-- The outcome of the HTTP exchange with the remote service for the query at
hand: either an exception during `requests.post` / response parsing, or a
status code together with the parsed `value` array. -/
structure AzureResp where
  status : Nat
  value : List RawDoc

/-- Environment of one `AzureSearchClient.search` call: whether the client is
configured (`self.enabled`) and what the transport produced. -/
structure AzureEnv where
  enabled : Bool
  indexName : String
  response : Except String AzureResp

/-- `AzureSearchClient.search`: `[]` when not configured; `[]` when the
request raises (the `except` branch) or returns a non-200 status; otherwise
the mapped records.  It never raises to its caller. -/
def azure_search (env : AzureEnv) (_query : String) (_k : Nat) : List RDoc :=
  if ¬ env.enabled then []
  else
    match env.response with
    | .error _ => []
    | .ok resp =>
      if resp.status ≠ 200 then []
      else resp.value.map (mapRaw env.indexName)

/-! ## Local vector search (`tools/vector_search.py`,
`VectorDocumentSearch.search`) -/

/-- Environment of one `VectorDocumentSearch.search` call.
`useKeyword` is `self.use_keyword_search` (set when embeddings are
unavailable); `vectorOutcome` is the combined outcome of loading the
vectorstore and running `similarity_search_with_score` (`Except.error` covers
a load failure as well as an exception during the similarity search, both of
which divert to `_keyword_search`); `kwOutcome` is the outcome of the body of
`_keyword_search` itself (its own `except` returns `[]`); `documents` is what
`load_documents()` yields. -/
structure VectorEnv where
  useKeyword : Bool
  vectorOutcome : Except String (List RDoc)
  kwOutcome : Except String Unit
  documents : List KDoc

/-- `_keyword_search` with its surrounding `try/except`: `[]` when the body
raises, else the keyword ranking over the loaded documents. -/
def keyword_search_safe (env : VectorEnv) (query : String) (k : Nat) : List RDoc :=
  match env.kwOutcome with
  | .error _ => []
  | .ok _ => keyword_search query env.documents k

/-- `VectorDocumentSearch.search`: keyword mode goes straight to
`_keyword_search`; a vectorstore failure or a similarity-search exception
falls back to `_keyword_search`; otherwise the similarity results are
returned.  It never raises to its caller. -/
def vector_search (env : VectorEnv) (query : String) (k : Nat) : List RDoc :=
  if env.useKeyword then keyword_search_safe env query k
  else
    match env.vectorOutcome with
    | .error _ => keyword_search_safe env query k
    | .ok docs => docs

/-! ## Response normalization (`_generate_response` in
`agents/tv_agent.py` and `agents/hr_agent.py`) -/

/-- The Python value bound to a `content` attribute or key. -/
inductive ContentVal where
  | str (s : String)
  | nonStr
  deriving DecidableEq

/-- The shape of the raw value returned by `self.llm.invoke`:
`None`, a plain string, an object with a `content` attribute, a dict with a
`'content'` key, any other shape, or a value whose inspection itself raises
(modelling an exception thrown while the handler examines the result; the
payload is `str(e)`). -/
inductive RawResult where
  | nullResult
  | strResult (s : String)
  | objContent (c : ContentVal)
  | dictContent (c : ContentVal)
  | otherShape
  | raisesOnInspect (msg : String)
  deriving DecidableEq

def tvMsgNone : String :=
  "I'm sorry, I couldn't generate a response at this time. Please try again."

def tvMsgRephrase : String :=
  "I couldn't generate an adequate response. Please rephrase your question."

def tvMsgUnexpected : String :=
  "I'm sorry, there was a technical problem. Please try again."

def tvMsgConfig : String :=
  "I'm sorry, there was a model configuration problem. The technical team has been notified."

def tvMsgTech : String :=
  "I'm sorry, I encountered a technical problem. Please try again later."

def hrMsgNone : String :=
  "Lo siento, no pude generar una respuesta en este momento. Por favor intenta de nuevo."

def hrMsgRephrase : String :=
  "No pude generar una respuesta adecuada. Por favor reformula tu pregunta."

def hrMsgUnexpected : String :=
  "Lo siento, hubo un problema técnico. Por favor intenta de nuevo."

def hrMsgTech : String :=
  "Lo siento, encontré un problema técnico. Por favor intenta de nuevo en un momento."

/-- Shape inspection shared by both agents (the bodies are identical up to the
message wording): `None` maps to the none-apology, a string is stripped, a
`content`-bearing object or dict yields its stripped string content when
non-empty, anything else the unexpected-format apology; an inspection
exception propagates. -/
def inspectResult (msgNone msgRephrase msgUnexpected : String) :
    RawResult → Except String String
  | .nullResult => .ok msgNone
  | .strResult s =>
    if pyStrip s ≠ "" then .ok (pyStrip s) else .ok msgRephrase
  | .objContent c =>
    match c with
    | .str s => if pyStrip s ≠ "" then .ok (pyStrip s) else .ok msgRephrase
    | .nonStr => .ok msgRephrase
  | .dictContent c =>
    match c with
    | .str s => if pyStrip s ≠ "" then .ok (pyStrip s) else .ok msgRephrase
    | .nonStr => .ok msgRephrase
  | .otherShape => .ok msgUnexpected
  | .raisesOnInspect m => .error m

/-- The TV agent's `except` handler: when `str(e).lower()` contains
`"unsupported parameter"` or `"temperature"`, a configuration-problem string,
otherwise the generic technical-problem string. -/
def tvHandleError (m : String) : String :=
  if strHas (pyLower m) "unsupported parameter" || strHas (pyLower m) "temperature" then
    tvMsgConfig
  else tvMsgTech

/-- `TVAgent._generate_response` on the outcome of `self.llm.invoke`
(`Except.error` = the invocation raised). -/
def tv_generate_response (invokeResult : Except String RawResult) : String :=
  match invokeResult with
  | .error m => tvHandleError m
  | .ok r =>
    match inspectResult tvMsgNone tvMsgRephrase tvMsgUnexpected r with
    | .ok s => s
    | .error m => tvHandleError m

/-- `HRAgentSimple._generate_response`: same shape handling, single fixed
string for every exception. -/
def hr_generate_response (invokeResult : Except String RawResult) : String :=
  match invokeResult with
  | .error _ => hrMsgTech
  | .ok r =>
    match inspectResult hrMsgNone hrMsgRephrase hrMsgUnexpected r with
    | .ok s => s
    | .error _ => hrMsgTech

/-! ## The TV agent pipeline (`agents/tv_agent.py`, `TVAgent.process_message`)

The model provider is a function from the built prompt to the outcome of
`self.llm.invoke`; wall-clock readings (`datetime.now()`) are passed in as
parameters; the uploaded files of the session are passed in as the listed
files paired with the outcome of `FileProcessor.process_file` on each. -/

/-- One uploaded file of the session as seen by `process_message`: its
`original_name` and the outcome of extracting its text. -/
structure FileEntry where
  originalName : String
  extraction : Except String String

/-- The `file_content` accumulation loop: a successfully processed file
appends a header and its content; a failing file is skipped (`continue`). -/
def buildFileContent (files : List FileEntry) : String :=
  files.foldl
    (fun acc f =>
      match f.extraction with
      | .ok c => acc ++ "\n--- Content from " ++ f.originalName ++ " ---\n" ++ c ++ "\n"
      | .error _ => acc)
    ""

/-- Parts of `TVAgent._prepare_context`: `enumerate(search_results[:3], 1)`,
keeping only documents with non-empty stripped content; the counter advances
on every document. -/
def tv_prep_parts : List RDoc → Nat → List String
  | [], _ => []
  | d :: rest, i =>
    let c := pyStrip d.content
    if c = "" then tv_prep_parts rest (i + 1)
    else ("Document " ++ toString i ++ ":\n" ++ c ++ "\n") :: tv_prep_parts rest (i + 1)

/-- `TVAgent._prepare_context`. -/
def tv_prepare_context (rs : List RDoc) : String :=
  if rs = [] then "" else joinNL (tv_prep_parts (rs.take 3) 1)

/-- A prompt turn (`SystemMessage` / `HumanMessage`). -/
inductive PMsg where
  | system (content : String)
  | human (content : String)
  deriving DecidableEq

def tvSystemPrompt : String :=
  "You are a Tv report assistant specialized in HAVAS.\n            Always MUST respond in the language you are asked, ALWAYS.\n            If they ask you in Spanish, respond in Spanish.\n            If they ask you in French, respond in French.\n            If they ask you in English, respond in English.\n            If you don't know the answer, say so clearly.\n            If you need more information, ask for it.\n            If you are unsure about something, ask for clarification.\n            If you encounter a problem, describe it clearly.\n            Use the provided information to give accurate and helpful answers.\n            If you don't have enough information, say so clearly.\n            \n            IMPORTANT: When the user has uploaded files, prioritize the content from those files over the Azure AI Search results.\n            The uploaded files should be considered the primary source of information for answering questions."

/-- Steps 4 of `process_message`: system prompt, the last 4 history entries
as `User:`/`Assistant:` line pairs (`conversation_history[-4:]`), then the
final user turn carrying context (if any) and the question. -/
def tv_build_messages (history : List Entry) (context fileContent message : String) :
    List PMsg :=
  [.system tvSystemPrompt]
    ++ (history.drop (history.length - 4)).flatMap
        (fun h => [.human ("User: " ++ h.human), .system ("Assistant: " ++ h.ai)])
    ++ [.human
        (if context ≠ "" then
          (if fileContent ≠ "" then
            "Information from uploaded files:\n" ++ context ++ "\n\nUser's question: " ++ message
          else
            "Relevant information from knowledge base:\n" ++ context ++ "\n\nUser's question: " ++ message)
        else "User's question: " ++ message)]

/-- The structured result of `process_message`: either the success dict
(`response`, `documentsFound`, `filesUsed`, `hasContext`, `contextSource`,
`session_info`, `processing_time`, `timestamp`) or the error dict of the
outer `except` (`error`, `details`, `timestamp`).  `processing_time` (a
rounded float) is abstracted to `Nat`. -/
inductive TVResult where
  | done (response : String) (documentsFound filesUsed : Nat) (hasContext : Bool)
      (contextSource : String) (session_info : StatsRecord)
      (processing_time : Nat) (timestamp : String)
  | errored (error details timestamp : String)
  deriving DecidableEq

/-- Whether the result dict lacks the `'error'` key. -/
def TVResult.isDone : TVResult → Bool
  | .done .. => true
  | .errored .. => false

/-- The `'response'` field of a success record. -/
def TVResult.response? : TVResult → Option String
  | .done r .. => some r
  | .errored .. => none

/-- The `'documentsFound'` field of a success record. -/
def TVResult.documentsFound? : TVResult → Option Nat
  | .done _ d .. => some d
  | .errored .. => none

/-- The `'details'` field of an error record. -/
def TVResult.details? : TVResult → Option String
  | .done .. => none
  | .errored _ d _ => some d

/-- The `'error'` field of an error record. -/
def TVResult.error? : TVResult → Option String
  | .done .. => none
  | .errored e _ _ => some e

/-- The happy path of `TVAgent.process_message` (its body runs to completion
whenever no unexpected exception occurs: every internal failure is caught
within the helpers).  Returns the updated memory together with the result
record. `tsEntry` is the clock reading stored in the memory entry, `tsResult`
the one stored in the result. -/
def tv_process_message (az : AzureEnv) (files : List FileEntry)
    (llm : List PMsg → Except String RawResult) (mem : MemStore)
    (message sid tsEntry tsResult : String) (procTime : Nat) :
    MemStore × TVResult :=
  let fileContent := buildFileContent files
  let searchResults := if fileContent ≠ "" then [] else azure_search az message 15
  let context := if fileContent ≠ "" then fileContent else tv_prepare_context searchResults
  let history := get_conversation_history mem sid
  let msgs := tv_build_messages history context fileContent message
  let response := tv_generate_response (llm msgs)
  let mem' := add_message mem sid message response tsEntry
  (mem',
    .done response searchResults.length files.length (context ≠ "")
      (if fileContent ≠ "" then "uploaded_files" else "azure_search")
      (get_session_info mem' sid) procTime tsResult)

/-- The error record built by the outer `except` of `process_message`:
`{'error': 'Internal server error', 'details': str(e), 'timestamp': ...}`. -/
def tv_error_record (e ts : String) : TVResult :=
  .errored "Internal server error" e ts

/-- `process_message` seen from its caller, with a possibly injected
unexpected exception (`str(e)` as payload): the outer `except` converts it to
the error record, otherwise the happy path result is returned. -/
def tv_process_message_outcome (unexpected : Option String) (az : AzureEnv)
    (files : List FileEntry) (llm : List PMsg → Except String RawResult)
    (mem : MemStore) (message sid tsEntry tsResult : String) (procTime : Nat) :
    TVResult :=
  match unexpected with
  | some e => tv_error_record e tsResult
  | none => (tv_process_message az files llm mem message sid tsEntry tsResult procTime).2

/-! ## The HTTP chat boundary (`app.py`, `chat`) -/

/-- The JSON body of a `/api/chat` request (fields may be absent). -/
structure ChatRequest where
  message : Option String
  sessionId : Option String

/-- The HTTP responses `chat` can produce: a 400 with a specific message, a
200 carrying the agent's result dict, or a 500 carrying only
`{'error': 'Internal server error', 'timestamp': ...}` (no details). -/
inductive ChatHttp where
  | badRequest (error : String)
  | okJson (result : TVResult)
  | serverError (error timestamp : String)
  deriving DecidableEq

/-- `app.py`'s `chat` handler over an abstract agent `run` (which stands for
`hr_agent_simple.process_message` together with the process state it
mutates): missing body or missing `message` key give a 400; an empty stripped
message gives a 400 before the agent is ever invoked; an `'error'` result is
converted to a 500 that drops the details; otherwise the result is returned
as JSON. -/
def chat (req : Option ChatRequest) (run : String → String → MemStore × TVResult)
    (mem0 : MemStore) (ts : String) : MemStore × ChatHttp :=
  match req with
  | none => (mem0, .badRequest "Message required")
  | some r =>
    match r.message with
    | none => (mem0, .badRequest "Message required")
    | some m0 =>
      let m := pyStrip m0
      let sid := r.sessionId.getD "default"
      if m = "" then (mem0, .badRequest "Message cannot be empty")
      else
        let res := run m sid
        match res.2 with
        | .errored _ _ _ => (res.1, .serverError "Internal server error" ts)
        | out => (res.1, .okJson out)

/-! ## File store (`tools/file_processor.py`)

The uploads folder is modelled as the list of its regular files, each a
`(filename, size)` pair; `os.path.join(upload_folder, name)` is elided, so a
`file_path` is just the stored filename.  `save_file` receives the filename
already in `secure_filename`'s image (sanitization itself is external
werkzeug code). -/

abbrev FileStore : Type := List (String × Nat)

def ALLOWED_EXTENSIONS : List String := ["pdf", "xlsx"]

def MAX_FILE_SIZE : Nat := 10 * 1024 * 1024

/-- Whether the string contains a dot (`'.' in filename`). -/
def hasDot (s : String) : Bool := s.data.contains '.'

/-- The characters after the last dot: `filename.rsplit('.', 1)[1]`
(meaningful only when a dot is present; Python raises IndexError otherwise,
which the call sites model explicitly). -/
def afterLastDot (s : String) : String :=
  ⟨(s.data.reverse.takeWhile (fun c => c ≠ '.')).reverse⟩

/-- `FileProcessor.allowed_file`. -/
def allowed_file (fname : String) : Bool :=
  hasDot fname && ALLOWED_EXTENSIONS.contains (pyLower (afterLastDot fname))

/-- The file-info dict built by `save_file` / `get_session_files`. -/
structure FileInfoR where
  original_name : String
  file_path : String
  file_type : String
  file_size : Nat
  session_id : String
  deriving DecidableEq

/-- Outcomes of `FileProcessor.save_file`: `None` for a falsy/unnamed file, a
raised `ValueError` (re-raised by its `except`), or the saved file's info
together with the grown store. -/
inductive SaveOutcome where
  | noFile
  | vError (msg : String)
  | saved (store : FileStore) (info : FileInfoR)
  deriving DecidableEq

/-- The stored name `f"{session_id}_{filename}"`. -/
def uniqueName (sid fname : String) : String := sid ++ "_" ++ fname

/-- `FileProcessor.save_file`. -/
def save_file (store : FileStore) (fname : String) (size : Nat) (sid : String) :
    SaveOutcome :=
  if fname = "" then .noFile
  else if ¬ allowed_file fname then
    .vError "File type not allowed. Only pdf, xlsx are supported."
  else if size > MAX_FILE_SIZE then
    .vError "File too large. Maximum size is 10MB"
  else
    .saved (store ++ [(uniqueName sid fname, size)])
      ⟨fname, uniqueName sid fname, pyLower (afterLastDot fname), size, sid⟩

/-- Loop of `FileProcessor.get_session_files`: files whose name starts with
`f"{session_id}_"` are collected; extracting the extension of a dot-less
remainder raises IndexError, and the surrounding `except` then returns the
list accumulated so far (aborting the scan). -/
def get_session_files_loop (sid : String) : FileStore → List FileInfoR → List FileInfoR
  | [], acc => acc
  | (n, sz) :: rest, acc =>
    if strStarts n (sid ++ "_") then
      let orig := strDrop n (sid ++ "_").length
      if hasDot orig then
        get_session_files_loop sid rest
          (acc ++ [⟨orig, n, pyLower (afterLastDot orig), sz, sid⟩])
      else acc
    else get_session_files_loop sid rest acc

/-- `FileProcessor.get_session_files`. -/
def get_session_files (store : FileStore) (sid : String) : List FileInfoR :=
  get_session_files_loop sid store []

/-- `FileProcessor.clear_session_files`: removes from the store exactly the
`file_path`s listed by `get_session_files` for the session (missing files are
tolerated). -/
def clear_session_files (store : FileStore) (sid : String) : FileStore :=
  store.filter
    (fun p => ! ((get_session_files store sid).map FileInfoR.file_path).contains p.1)

/-- Model of Python `s.endswith(p)` (used to state the ellipsis property). -/
def strEnds (s p : String) : Bool := isPre p.data.reverse s.data.reverse

/-- Total length of a list of parts, the quantity the `get_context` loops
track in their `length` accumulator. -/
def sumLen (parts : List String) : Nat := (parts.map String.length).sum

/-! ## Shared helper lemmas -/

/-- A `String` built from a char list has that list's length. -/
lemma str_mk_length (l : List Char) : (⟨l⟩ : String).length = l.length := rfl

/-- String length is the length of the underlying char list. -/
lemma str_length_data (s : String) : s.length = s.data.length := rfl

/-- Length of a string concatenation. -/
lemma str_append_length (a b : String) : (a ++ b).length = a.length + b.length := by
  rw [str_length_data, String.data_append, List.length_append,
    ← str_length_data, ← str_length_data]

/-- Length of the Python slice `s[:n]`. -/
lemma strTake_length (s : String) (n : Nat) :
    (strTake s n).length = min n s.length := by
  rw [strTake, str_mk_length, List.length_take, str_length_data]

/-- A list is an initial segment of itself followed by anything. -/
lemma isPre_self_append : ∀ (p t : List Char), isPre p (p ++ t) = true
  | [], _ => rfl
  | a :: ps, t => by
    simp only [List.cons_append, isPre, beq_self_eq_true, Bool.true_and]
    exact isPre_self_append ps t

/-- Appending `p` makes a string end with `p`. -/
lemma strEnds_append (s p : String) : strEnds (s ++ p) p = true := by
  rw [strEnds, String.data_append, List.reverse_append]
  exact isPre_self_append _ _

/-- `sumLen` over an appended single part. -/
lemma sumLen_append_one (parts : List String) (c : String) :
    sumLen (parts ++ [c]) = sumLen parts + c.length := by
  simp [sumLen]

/-- Every output of the TV exception handler is one of its two fixed
strings. -/
lemma tvHandleError_cases (m : String) :
    tvHandleError m = tvMsgConfig ∨ tvHandleError m = tvMsgTech := by
  unfold tvHandleError
  split
  · exact Or.inl rfl
  · exact Or.inr rfl

/-- A successful shape inspection never yields the empty string when the
three fallback strings are non-empty. -/
lemma inspect_ok_ne (a b c : String) (ha : a ≠ "") (hb : b ≠ "") (hc : c ≠ "")
    (r : RawResult) (s : String) (h : inspectResult a b c r = .ok s) : s ≠ "" := by
  match r with
  | .nullResult =>
    simp only [inspectResult, Except.ok.injEq] at h
    exact h ▸ ha
  | .strResult t =>
    simp only [inspectResult] at h
    split at h
    · next hne =>
      simp only [Except.ok.injEq] at h
      exact h ▸ hne
    · simp only [Except.ok.injEq] at h
      exact h ▸ hb
  | .objContent (.str t) =>
    simp only [inspectResult] at h
    split at h
    · next hne =>
      simp only [Except.ok.injEq] at h
      exact h ▸ hne
    · simp only [Except.ok.injEq] at h
      exact h ▸ hb
  | .objContent .nonStr =>
    simp only [inspectResult, Except.ok.injEq] at h
    exact h ▸ hb
  | .dictContent (.str t) =>
    simp only [inspectResult] at h
    split at h
    · next hne =>
      simp only [Except.ok.injEq] at h
      exact h ▸ hne
    · simp only [Except.ok.injEq] at h
      exact h ▸ hb
  | .dictContent .nonStr =>
    simp only [inspectResult, Except.ok.injEq] at h
    exact h ▸ hb
  | .otherShape =>
    simp only [inspectResult, Except.ok.injEq] at h
    exact h ▸ hc
  | .raisesOnInspect m => simp [inspectResult] at h

/-- The TV normalizer never returns the empty string. -/
lemma tv_generate_response_ne_empty (r : Except String RawResult) :
    tv_generate_response r ≠ "" := by
  have hhandle : ∀ m, tvHandleError m ≠ "" := by
    intro m
    rcases tvHandleError_cases m with h | h <;> rw [h] <;> decide
  match r with
  | .error m => exact hhandle m
  | .ok rr =>
    cases heq : inspectResult tvMsgNone tvMsgRephrase tvMsgUnexpected rr with
    | ok s =>
      simp only [tv_generate_response, heq]
      exact inspect_ok_ne _ _ _ (by decide) (by decide) (by decide) rr s heq
    | error m =>
      simp only [tv_generate_response, heq]
      exact hhandle m

/-- The HR normalizer never returns the empty string. -/
lemma hr_generate_response_ne_empty (r : Except String RawResult) :
    hr_generate_response r ≠ "" := by
  match r with
  | .error m =>
    show hrMsgTech ≠ ""
    decide
  | .ok rr =>
    cases heq : inspectResult hrMsgNone hrMsgRephrase hrMsgUnexpected rr with
    | ok s =>
      simp only [hr_generate_response, heq]
      exact inspect_ok_ne _ _ _ (by decide) (by decide) (by decide) rr s heq
    | error m =>
      simp only [hr_generate_response, heq]
      decide

/-! ## Claim C1 — totality and case mapping of the response normalizer -/

/-- C1 counterexample: the claim says any exception during inspection maps to
a fixed "technical problem" string, but `TVAgent._generate_response` maps an
inspection exception whose text contains "temperature" to the distinct
"model configuration problem" string, so the exception path does not produce
a single fixed string. -/
theorem C1_counterexample :
    tv_generate_response (.ok (.raisesOnInspect "temperature")) = tvMsgConfig ∧
    tv_generate_response (.ok (.raisesOnInspect "boom")) = tvMsgTech ∧
    tvMsgConfig ≠ tvMsgTech := by
  decide

/-- C1 amended: both `_generate_response` implementations are total and never
return an empty string; `None` maps to a fixed apology, an empty or
whitespace string (or empty/non-string content) maps to the fixed "rephrase"
fallback, a non-empty string or content is returned stripped, an unrecognized
shape maps to a distinct fixed apology, and any exception (during invocation
or inspection) maps to a fixed string — for the HR agent always the
"technical problem" string, for the TV agent the "model configuration
problem" string when the exception text mentions "unsupported parameter" or
"temperature" and the "technical problem" string otherwise. -/
theorem C1_amended :
    (∀ s, pyStrip s ≠ "" → tv_generate_response (.ok (.strResult s)) = pyStrip s) ∧
    (∀ r, tv_generate_response r ≠ "") ∧
    (∀ r, hr_generate_response r ≠ "") ∧
    tv_generate_response (.ok .nullResult) = tvMsgNone ∧
    hr_generate_response (.ok .nullResult) = hrMsgNone ∧
    (∀ s, pyStrip s = "" → tv_generate_response (.ok (.strResult s)) = tvMsgRephrase) ∧
    (∀ s, pyStrip s ≠ "" →
      tv_generate_response (.ok (.objContent (.str s))) = pyStrip s ∧
      tv_generate_response (.ok (.dictContent (.str s))) = pyStrip s) ∧
    (∀ s, pyStrip s = "" →
      tv_generate_response (.ok (.objContent (.str s))) = tvMsgRephrase ∧
      tv_generate_response (.ok (.dictContent (.str s))) = tvMsgRephrase) ∧
    tv_generate_response (.ok (.objContent .nonStr)) = tvMsgRephrase ∧
    tv_generate_response (.ok (.dictContent .nonStr)) = tvMsgRephrase ∧
    tv_generate_response (.ok .otherShape) = tvMsgUnexpected ∧
    hr_generate_response (.ok .otherShape) = hrMsgUnexpected ∧
    (∀ m, tv_generate_response (.error m) = tvHandleError m) ∧
    (∀ m, tv_generate_response (.ok (.raisesOnInspect m)) = tvHandleError m) ∧
    (∀ m, tvHandleError m = tvMsgConfig ∨ tvHandleError m = tvMsgTech) ∧
    (∀ m, hr_generate_response (.error m) = hrMsgTech) ∧
    (∀ m, hr_generate_response (.ok (.raisesOnInspect m)) = hrMsgTech) ∧
    (tvMsgNone ≠ tvMsgRephrase ∧ tvMsgNone ≠ tvMsgUnexpected ∧
      tvMsgRephrase ≠ tvMsgUnexpected) := by
  refine ⟨?_, tv_generate_response_ne_empty, hr_generate_response_ne_empty,
    rfl, rfl, ?_, ?_, ?_, rfl, rfl, rfl, rfl, fun _ => rfl, fun _ => rfl,
    tvHandleError_cases, fun _ => rfl, fun _ => rfl, by decide⟩
  · intro s h
    simp [tv_generate_response, inspectResult, h]
  · intro s h
    simp [tv_generate_response, inspectResult, h]
  · intro s h
    constructor <;> simp [tv_generate_response, inspectResult, h]
  · intro s h
    constructor <;> simp [tv_generate_response, inspectResult, h]

/-- C1 witness: the amended theorem applied at a concrete non-blank string. -/
theorem C1_witness :
    tv_generate_response (.ok (.strResult "  hola  ")) = "hola" :=
  (C1_amended.1 "  hola  " (by decide)).trans (by decide)

/-! ## Claim C7 — session stats of a never-created session -/

/-- C7 counterexample: the agents' session-stats operation delegates to
`SimpleMemoryManager.get_session_info`, which for a never-created session
returns the `{'session_id', 'message_count': 0, 'last_activity': None,
'created': None}` record, not the `{exists: false}` shape. -/
theorem C7_counterexample :
    tv_get_conversation_stats emptyMemStore "s1" = .simpleInfo "s1" 0 none none ∧
    tv_get_conversation_stats emptyMemStore "s1" ≠ .existsFalse := by
  decide

/-- C7 amended: for a never-created session, both agents' stats return the
`SimpleMemoryManager` record with zero count and null timestamps (never the
`{exists: false}` shape); the `{exists: false}` shape is produced by
`ConversationMemoryManager.get_session_info`, which the agents do not use. -/
theorem C7_amended (st : MemStore) (cst : ConvStore) (sid : String)
    (h : st sid = none) (hc : cst sid = none) :
    tv_get_conversation_stats st sid = .simpleInfo sid 0 none none ∧
    hr_get_conversation_stats st sid = .simpleInfo sid 0 none none ∧
    tv_get_conversation_stats st sid ≠ .existsFalse ∧
    conv_get_session_info cst sid = .existsFalse := by
  refine ⟨?_, ?_, ?_, ?_⟩
  · simp [tv_get_conversation_stats, get_session_info, get_conversation_history, h]
  · simp [hr_get_conversation_stats, get_session_info, get_conversation_history, h]
  · simp [tv_get_conversation_stats, get_session_info, get_conversation_history, h]
  · simp [conv_get_session_info, hc]

/-- C7 witness: the amended theorem at the fresh stores. -/
theorem C7_witness :
    tv_get_conversation_stats emptyMemStore "s" = .simpleInfo "s" 0 none none ∧
    hr_get_conversation_stats emptyMemStore "s" = .simpleInfo "s" 0 none none ∧
    tv_get_conversation_stats emptyMemStore "s" ≠ .existsFalse ∧
    conv_get_session_info (fun _ => none) "s" = .existsFalse :=
  C7_amended emptyMemStore (fun _ => none) "s" rfl rfl

/-! ## Claim C3 — the 10-entry history cap -/

/-- One `add_message` call appends the entry and keeps the last 10 (the
`lst[-10:]` truncation is a `drop` of all but the last 10, also when the list
is short). -/
lemma hist_add (st : MemStore) (sid h a ts : String) :
    get_conversation_history (add_message st sid h a ts) sid
      = (get_conversation_history st sid ++ [Entry.mk h a ts]).drop
          ((get_conversation_history st sid ++ [Entry.mk h a ts]).length - 10) := by
  have hbranch : (add_message st sid h a ts) sid
      = some (if (((st sid).getD []) ++ [Entry.mk h a ts]).length > 10 then
          (((st sid).getD []) ++ [Entry.mk h a ts]).drop
            ((((st sid).getD []) ++ [Entry.mk h a ts]).length - 10)
        else ((st sid).getD []) ++ [Entry.mk h a ts]) := by
    unfold add_message
    rw [if_pos rfl]
  unfold get_conversation_history
  rw [hbranch, Option.getD_some]
  split
  · rfl
  · next hle =>
    have h0 : (((st sid).getD []) ++ [Entry.mk h a ts]).length - 10 = 0 := by omega
    rw [h0, List.drop_zero]

/-- Keeping the last `n` elements before appending more and keeping the last
`n` again is the same as keeping the last `n` of the whole concatenation. -/
lemma drop_last_comp {α : Type} (n : Nat) (L es : List α) :
    (L.drop (L.length - n) ++ es).drop ((L.drop (L.length - n) ++ es).length - n)
      = (L ++ es).drop ((L ++ es).length - n) := by
  rw [List.drop_append_eq_append_drop, List.drop_append_eq_append_drop,
    List.drop_drop]
  simp only [List.length_append, List.length_drop]
  congr 1
  · congr 1
    omega
  · congr 1
    omega

/-- The history after a run of `add_message` calls, starting from a session
whose history is within the cap, is the last 10 of the concatenation. -/
lemma runAdds_hist (sid : String) :
    ∀ (msgs : List (String × String × String)) (st : MemStore),
      (get_conversation_history st sid).length ≤ 10 →
      get_conversation_history (runAdds st sid msgs) sid
        = (get_conversation_history st sid ++ entriesOf msgs).drop
            ((get_conversation_history st sid ++ entriesOf msgs).length - 10)
  | [], st, hle => by
    simp only [runAdds, List.foldl_nil, entriesOf, List.map_nil, List.append_nil]
    have h0 : (get_conversation_history st sid).length - 10 = 0 := by omega
    rw [h0, List.drop_zero]
  | m :: msgs, st, hle => by
    have hstep : runAdds st sid (m :: msgs)
        = runAdds (add_message st sid m.1 m.2.1 m.2.2) sid msgs := rfl
    have h1 := hist_add st sid m.1 m.2.1 m.2.2
    have hle₁ :
        (get_conversation_history (add_message st sid m.1 m.2.1 m.2.2) sid).length ≤ 10 := by
      rw [h1]
      simp only [List.length_drop]
      omega
    have ih := runAdds_hist sid msgs (add_message st sid m.1 m.2.1 m.2.2) hle₁
    rw [hstep, ih, h1, drop_last_comp]
    have hsplit :
        (get_conversation_history st sid ++ [Entry.mk m.1 m.2.1 m.2.2]) ++ entriesOf msgs
          = get_conversation_history st sid ++ entriesOf (m :: msgs) := by
      simp [entriesOf, List.append_assoc]
    rw [hsplit]

/-- C3: after more than 10 `add_message` calls on a session, the history is
exactly the entries of the last 10 calls, in call order (most recent last),
and has length exactly 10; this holds from any starting store. -/
theorem C3_history_cap (st : MemStore) (sid : String)
    (msgs : List (String × String × String)) (h : msgs.length > 10) :
    get_conversation_history (runAdds st sid msgs) sid
      = (entriesOf msgs).drop (msgs.length - 10) ∧
    (get_conversation_history (runAdds st sid msgs) sid).length = 10 := by
  match msgs, h with
  | m :: rest, h =>
    have hstep : runAdds st sid (m :: rest)
        = runAdds (add_message st sid m.1 m.2.1 m.2.2) sid rest := rfl
    have h1 := hist_add st sid m.1 m.2.1 m.2.2
    have hle₁ :
        (get_conversation_history (add_message st sid m.1 m.2.1 m.2.2) sid).length ≤ 10 := by
      rw [h1]
      simp only [List.length_drop]
      omega
    have ih := runAdds_hist sid rest (add_message st sid m.1 m.2.1 m.2.2) hle₁
    have hfin : get_conversation_history (runAdds st sid (m :: rest)) sid
        = (get_conversation_history st sid ++ entriesOf (m :: rest)).drop
            ((get_conversation_history st sid ++ entriesOf (m :: rest)).length - 10) := by
      rw [hstep, ih, h1, drop_last_comp]
      have hsplit :
          (get_conversation_history st sid ++ [Entry.mk m.1 m.2.1 m.2.2]) ++ entriesOf rest
            = get_conversation_history st sid ++ entriesOf (m :: rest) := by
        simp [entriesOf, List.append_assoc]
      rw [hsplit]
    have hlen : (entriesOf (m :: rest)).length = (m :: rest).length := by
      simp [entriesOf]
    have hidx : (get_conversation_history st sid ++ entriesOf (m :: rest)).length - 10
        = (get_conversation_history st sid).length + ((m :: rest).length - 10) := by
      simp only [List.length_append, hlen]
      omega
    rw [hidx, List.drop_append] at hfin
    refine ⟨hfin, ?_⟩
    rw [hfin, List.length_drop, hlen]
    simp only [List.length_cons] at h ⊢
    omega

/-- C3 witness: eleven concrete calls leave exactly the last ten entries. -/
theorem C3_witness :
    get_conversation_history
        (runAdds emptyMemStore "s"
          [("h1", "a1", "t"), ("h2", "a2", "t"), ("h3", "a3", "t"), ("h4", "a4", "t"),
            ("h5", "a5", "t"), ("h6", "a6", "t"), ("h7", "a7", "t"), ("h8", "a8", "t"),
            ("h9", "a9", "t"), ("h10", "a10", "t"), ("h11", "a11", "t")]) "s"
      = (entriesOf
          [("h1", "a1", "t"), ("h2", "a2", "t"), ("h3", "a3", "t"), ("h4", "a4", "t"),
            ("h5", "a5", "t"), ("h6", "a6", "t"), ("h7", "a7", "t"), ("h8", "a8", "t"),
            ("h9", "a9", "t"), ("h10", "a10", "t"), ("h11", "a11", "t")]).drop 1 :=
  (C3_history_cap emptyMemStore "s"
    [("h1", "a1", "t"), ("h2", "a2", "t"), ("h3", "a3", "t"), ("h4", "a4", "t"),
      ("h5", "a5", "t"), ("h6", "a6", "t"), ("h7", "a7", "t"), ("h8", "a8", "t"),
      ("h9", "a9", "t"), ("h10", "a10", "t"), ("h11", "a11", "t")]
    (by decide)).1

/-! ## Claim C2 — the context-assembly length budget -/

/-- The Azure context loop keeps the sum of part lengths within the budget. -/
lemma azure_loop_sum (maxLength : Nat) :
    ∀ (rs : List Snippet) (parts : List String) (length : Nat),
      sumLen parts ≤ length → length ≤ maxLength →
      sumLen (azure_context_loop maxLength rs parts length) ≤ maxLength
  | [], parts, length, h1, h2 => by
    simpa [azure_context_loop] using le_trans h1 h2
  | r :: rest, parts, length, h1, h2 => by
    simp only [azure_context_loop]
    by_cases hc : pyStrip r.content = ""
    · rw [if_pos hc]
      exact azure_loop_sum maxLength rest parts length h1 h2
    · rw [if_neg hc]
      by_cases hfit : length + (formatChunk r.title (pyStrip r.content)).length ≤ maxLength
      · rw [if_pos hfit]
        refine azure_loop_sum maxLength rest _ _ ?_ hfit
        rw [sumLen_append_one]
        omega
      · rw [if_neg hfit]
        by_cases hrem : maxLength - length > 100
        · rw [if_pos hrem]
          rw [sumLen_append_one, str_append_length, strTake_length]
          have h3 : ("..." : String).length = 3 := rfl
          rw [h3]
          have hmin : min (maxLength - length - 3)
              (formatChunk r.title (pyStrip r.content)).length ≤ maxLength - length - 3 :=
            Nat.min_le_left _ _
          omega
        · rw [if_neg hrem]
          exact le_trans h1 h2

/-- The Azure context loop adds at most one part per snippet. -/
lemma azure_loop_count (maxLength : Nat) :
    ∀ (rs : List Snippet) (parts : List String) (length : Nat),
      (azure_context_loop maxLength rs parts length).length ≤ parts.length + rs.length
  | [], parts, length => by simp [azure_context_loop]
  | r :: rest, parts, length => by
    simp only [azure_context_loop]
    by_cases hc : pyStrip r.content = ""
    · rw [if_pos hc]
      have := azure_loop_count maxLength rest parts length
      simp only [List.length_cons]
      omega
    · rw [if_neg hc]
      by_cases hfit : length + (formatChunk r.title (pyStrip r.content)).length ≤ maxLength
      · rw [if_pos hfit]
        have := azure_loop_count maxLength rest
          (parts ++ [formatChunk r.title (pyStrip r.content)])
          (length + (formatChunk r.title (pyStrip r.content)).length)
        simp only [List.length_append, List.length_cons, List.length_nil] at this ⊢
        omega
      · rw [if_neg hfit]
        by_cases hrem : maxLength - length > 100
        · rw [if_pos hrem]
          simp only [List.length_append, List.length_cons, List.length_nil]
          omega
        · rw [if_neg hrem]
          simp only [List.length_cons]
          omega

/-- The vector context loop keeps the sum of part lengths within the
budget. -/
lemma vector_loop_sum (maxLength : Nat) :
    ∀ (rs : List Snippet) (parts : List String) (length : Nat),
      sumLen parts ≤ length → length ≤ maxLength →
      sumLen (vector_context_loop maxLength rs parts length) ≤ maxLength
  | [], parts, length, h1, h2 => by
    simpa [vector_context_loop] using le_trans h1 h2
  | r :: rest, parts, length, h1, h2 => by
    simp only [vector_context_loop]
    by_cases hfit : length + (formatChunk r.title (pyStrip r.content)).length ≤ maxLength
    · rw [if_pos hfit]
      refine vector_loop_sum maxLength rest _ _ ?_ hfit
      rw [sumLen_append_one]
      omega
    · rw [if_neg hfit]
      by_cases hrem : maxLength - length > 100
      · rw [if_pos hrem]
        rw [sumLen_append_one, str_append_length, strTake_length]
        have h3 : ("..." : String).length = 3 := rfl
        rw [h3]
        have hmin : min (maxLength - length - 3)
            (formatChunk r.title (pyStrip r.content)).length ≤ maxLength - length - 3 :=
          Nat.min_le_left _ _
        omega
      · rw [if_neg hrem]
        exact le_trans h1 h2

/-- The vector context loop adds at most one part per snippet. -/
lemma vector_loop_count (maxLength : Nat) :
    ∀ (rs : List Snippet) (parts : List String) (length : Nat),
      (vector_context_loop maxLength rs parts length).length ≤ parts.length + rs.length
  | [], parts, length => by simp [vector_context_loop]
  | r :: rest, parts, length => by
    simp only [vector_context_loop]
    by_cases hfit : length + (formatChunk r.title (pyStrip r.content)).length ≤ maxLength
    · rw [if_pos hfit]
      have := vector_loop_count maxLength rest
        (parts ++ [formatChunk r.title (pyStrip r.content)])
        (length + (formatChunk r.title (pyStrip r.content)).length)
      simp only [List.length_append, List.length_cons, List.length_nil] at this ⊢
      omega
    · rw [if_neg hfit]
      by_cases hrem : maxLength - length > 100
      · rw [if_pos hrem]
        simp only [List.length_append, List.length_cons, List.length_nil]
        omega
      · rw [if_neg hrem]
        simp only [List.length_cons]
        omega

/-- The length of a `"\n".join` is the sum of the part lengths plus one
separator between consecutive parts. -/
lemma joinNL_length : ∀ (L : List String), (joinNL L).length ≤ sumLen L + L.length
  | [] => by simp [joinNL, sumLen]
  | [p] => by simp [joinNL, sumLen]
  | p :: q :: rest => by
    have ih := joinNL_length (q :: rest)
    simp only [joinNL, str_append_length]
    have h1 : ("\n" : String).length = 1 := rfl
    rw [h1]
    simp only [sumLen, List.map_cons, List.sum_cons, List.length_cons] at ih ⊢
    omega

/-- C2 counterexample: two snippets of stripped content `"aa"` with budget 6
produce `"aa\n" ++ "\n" ++ "aa\n"` — the loop counts 6 chunk characters, but
the `"\n".join` separator pushes the final string to length 7 > 6. -/
theorem C2_counterexample :
    (azure_get_context [Snippet.mk "aa" "", Snippet.mk "aa" ""] 6).length = 7 ∧
    (vector_get_context [Snippet.mk "aa" "", Snippet.mk "aa" ""] 6).length = 7 ∧
    ¬ ((azure_get_context [Snippet.mk "aa" "", Snippet.mk "aa" ""] 6).length ≤ 6) := by
  decide

/-- C2 amended: the loops keep the sum of chunk lengths within `maxLength`,
but `"\n".join` inserts one separator per additional part, so the returned
string is only bounded by `maxLength` plus the number of snippets; the
first-snippet clause holds as stated: when the first formatted chunk alone
exceeds `maxLength` and `maxLength > 100`, the result is the truncated
prefix of that chunk followed by `"..."`, has length at most `maxLength`,
and ends with the ellipsis marker. -/
theorem C2_amended (results : List Snippet) (maxLength : Nat) (r : Snippet)
    (rest : List Snippet)
    (h1 : pyStrip r.content ≠ "")
    (hbig : (formatChunk r.title (pyStrip r.content)).length > maxLength)
    (h100 : maxLength > 100) :
    (azure_get_context results maxLength).length ≤ maxLength + results.length ∧
    (vector_get_context results maxLength).length ≤ maxLength + results.length ∧
    sumLen (azure_context_loop maxLength results [] 0) ≤ maxLength ∧
    sumLen (vector_context_loop maxLength results [] 0) ≤ maxLength ∧
    azure_get_context (r :: rest) maxLength
      = strTake (formatChunk r.title (pyStrip r.content)) (maxLength - 3) ++ "..." ∧
    (azure_get_context (r :: rest) maxLength).length ≤ maxLength ∧
    strEnds (azure_get_context (r :: rest) maxLength) "..." = true ∧
    vector_get_context (r :: rest) maxLength
      = strTake (formatChunk r.title (pyStrip r.content)) (maxLength - 3) ++ "..." ∧
    (vector_get_context (r :: rest) maxLength).length ≤ maxLength ∧
    strEnds (vector_get_context (r :: rest) maxLength) "..." = true := by
  have hsumA : sumLen (azure_context_loop maxLength results [] 0) ≤ maxLength :=
    azure_loop_sum maxLength results [] 0 (by simp [sumLen]) (Nat.zero_le _)
  have hsumV : sumLen (vector_context_loop maxLength results [] 0) ≤ maxLength :=
    vector_loop_sum maxLength results [] 0 (by simp [sumLen]) (Nat.zero_le _)
  have hboundA : (azure_get_context results maxLength).length
      ≤ maxLength + results.length := by
    by_cases hres : results = []
    · simp [azure_get_context, hres]
    · rw [azure_get_context, if_neg hres]
      calc (joinNL (azure_context_loop maxLength results [] 0)).length
          ≤ sumLen (azure_context_loop maxLength results [] 0)
            + (azure_context_loop maxLength results [] 0).length := joinNL_length _
        _ ≤ maxLength + results.length := by
            have hcnt := azure_loop_count maxLength results [] 0
            simp only [List.length_nil, Nat.zero_add] at hcnt
            omega
  have hboundV : (vector_get_context results maxLength).length
      ≤ maxLength + results.length := by
    by_cases hres : results = []
    · simp [vector_get_context, hres]
    · rw [vector_get_context, if_neg hres]
      calc (joinNL (vector_context_loop maxLength results [] 0)).length
          ≤ sumLen (vector_context_loop maxLength results [] 0)
            + (vector_context_loop maxLength results [] 0).length := joinNL_length _
        _ ≤ maxLength + results.length := by
            have hcnt := vector_loop_count maxLength results [] 0
            simp only [List.length_nil, Nat.zero_add] at hcnt
            omega
  have hfitfalse : ¬ 0 + (formatChunk r.title (pyStrip r.content)).length ≤ maxLength := by
    omega
  have hremtrue : maxLength - 0 > 100 := by omega
  have heqA : azure_get_context (r :: rest) maxLength
      = strTake (formatChunk r.title (pyStrip r.content)) (maxLength - 3) ++ "..." := by
    rw [azure_get_context, if_neg (by simp)]
    simp only [azure_context_loop]
    rw [if_neg h1, if_neg hfitfalse, if_pos hremtrue]
    simp only [List.nil_append, joinNL]
    rfl
  have heqV : vector_get_context (r :: rest) maxLength
      = strTake (formatChunk r.title (pyStrip r.content)) (maxLength - 3) ++ "..." := by
    rw [vector_get_context, if_neg (by simp)]
    simp only [vector_context_loop]
    rw [if_neg hfitfalse, if_pos hremtrue]
    simp only [List.nil_append, joinNL]
    rfl
  have hlenTr : (strTake (formatChunk r.title (pyStrip r.content)) (maxLength - 3)
      ++ ("..." : String)).length ≤ maxLength := by
    rw [str_append_length, strTake_length]
    have h3 : ("..." : String).length = 3 := rfl
    rw [h3]
    have hmin := Nat.min_le_left (maxLength - 3)
      (formatChunk r.title (pyStrip r.content)).length
    omega
  refine ⟨hboundA, hboundV, hsumA, hsumV, heqA, ?_, ?_, heqV, ?_, ?_⟩
  · rw [heqA]; exact hlenTr
  · rw [heqA]; exact strEnds_append _ _
  · rw [heqV]; exact hlenTr
  · rw [heqV]; exact strEnds_append _ _

/-- C2 witness: a single 110-character snippet against budget 104 is
truncated to exactly the prefix plus ellipsis. -/
theorem C2_witness :
    azure_get_context [Snippet.mk (String.mk (List.replicate 110 'a')) ""] 104
      = strTake (formatChunk ""
          (pyStrip (String.mk (List.replicate 110 'a')))) (104 - 3) ++ "..." ∧
    (azure_get_context [Snippet.mk (String.mk (List.replicate 110 'a')) ""] 104).length
      ≤ 104 + 1 :=
  ⟨(C2_amended [Snippet.mk (String.mk (List.replicate 110 'a')) ""] 104
      (Snippet.mk (String.mk (List.replicate 110 'a')) "") []
      (by decide) (by decide) (by decide)).2.2.2.2.1,
    (C2_amended [Snippet.mk (String.mk (List.replicate 110 'a')) ""] 104
      (Snippet.mk (String.mk (List.replicate 110 'a')) "") []
      (by decide) (by decide) (by decide)).1⟩

/-! ## Claim C6 — the keyword fallback ranking -/

/-- Membership through the stable insertion step. -/
lemma mem_insertDesc {a x : RDoc} : ∀ {l : List RDoc},
    a ∈ insertDesc x l ↔ a = x ∨ a ∈ l
  | [] => by simp [insertDesc]
  | y :: ys => by
    simp only [insertDesc]
    split
    · rw [List.mem_cons, mem_insertDesc (l := ys), List.mem_cons]
      tauto
    · exact List.mem_cons

/-- Membership through the stable descending sort. -/
lemma mem_sortDesc {a : RDoc} : ∀ {l : List RDoc}, a ∈ sortDesc l ↔ a ∈ l
  | [] => by simp [sortDesc]
  | x :: xs => by
    simp only [sortDesc, mem_insertDesc, mem_sortDesc (l := xs), List.mem_cons]

/-- Inserting an element of score `s` puts it in front of every other
element of score `s` (the skipped elements have strictly larger scores). -/
lemma insertDesc_filter_eq (x : RDoc) (s : Nat) (hx : x.score = s) :
    ∀ (l : List RDoc),
      (insertDesc x l).filter (fun d => d.score = s)
        = x :: l.filter (fun d => d.score = s)
  | [] => by simp [insertDesc, hx]
  | y :: ys => by
    simp only [insertDesc]
    split
    · next hgt =>
      have hy : ¬ (y.score = s) := by omega
      simp only [List.filter_cons, insertDesc_filter_eq x s hx ys]
      simp [hy]
    · simp only [List.filter_cons]
      simp [hx]

/-- Inserting an element of a different score leaves the score-`s` fiber
unchanged. -/
lemma insertDesc_filter_ne (x : RDoc) (s : Nat) (hx : ¬ x.score = s) :
    ∀ (l : List RDoc),
      (insertDesc x l).filter (fun d => d.score = s)
        = l.filter (fun d => d.score = s)
  | [] => by simp [insertDesc, hx]
  | y :: ys => by
    simp only [insertDesc]
    split
    · simp only [List.filter_cons, insertDesc_filter_ne x s hx ys]
    · simp only [List.filter_cons]
      simp [hx]

/-- Stability of the descending sort: within every score value, the original
order is preserved. -/
lemma sortDesc_stable (s : Nat) : ∀ (l : List RDoc),
    (sortDesc l).filter (fun d => d.score = s) = l.filter (fun d => d.score = s)
  | [] => by simp [sortDesc]
  | x :: xs => by
    by_cases hx : x.score = s
    · rw [sortDesc, insertDesc_filter_eq x s hx, sortDesc_stable s xs,
        List.filter_cons]
      simp [hx]
    · rw [sortDesc, insertDesc_filter_ne x s hx, sortDesc_stable s xs,
        List.filter_cons]
      simp [hx]

/-- Insertion preserves the descending order. -/
lemma insertDesc_pairwise (x : RDoc) :
    ∀ (l : List RDoc), List.Pairwise (fun a b => b.score ≤ a.score) l →
      List.Pairwise (fun a b => b.score ≤ a.score) (insertDesc x l)
  | [], _ => by simp [insertDesc]
  | y :: ys, h => by
    rcases List.pairwise_cons.mp h with ⟨hy, hys⟩
    simp only [insertDesc]
    split
    · next hgt =>
      refine List.pairwise_cons.mpr ⟨?_, insertDesc_pairwise x ys hys⟩
      intro z hz
      rcases mem_insertDesc.mp hz with hzx | hzys
      · subst hzx
        omega
      · exact hy z hzys
    · next hle =>
      refine List.pairwise_cons.mpr ⟨?_, h⟩
      intro z hz
      rcases List.mem_cons.mp hz with hzy | hzys
      · subst hzy
        omega
      · have := hy z hzys
        omega

/-- The stable sort is sorted by descending score. -/
lemma sortDesc_pairwise : ∀ (l : List RDoc),
    List.Pairwise (fun a b => b.score ≤ a.score) (sortDesc l)
  | [] => by simp [sortDesc]
  | x :: xs => insertDesc_pairwise x (sortDesc xs) (sortDesc_pairwise xs)

/-- C6: the keyword fallback returns at most `k` results; it is exactly the
stable descending-by-score sort of the positively-scored documents (in
original order) truncated to `k`; every returned record carries a positive
score equal to the keyword-overlap formula over its own content and title
and stems from an input document; the output is sorted by descending score;
and within equal scores the original document order is preserved. -/
theorem C6_keyword_search (query : String) (docs : List KDoc) (k : Nat) :
    (keyword_search query docs k).length ≤ k ∧
    keyword_search query docs k = (sortDesc (scoredList query docs)).take k ∧
    (∀ r ∈ keyword_search query docs k, r.score > 0) ∧
    (∀ r ∈ keyword_search query docs k, ∃ d ∈ docs, r = mkScored query d) ∧
    (∀ r ∈ keyword_search query docs k,
      r.score = interCount (pySplitWs (pyLower query)) (pySplitWs (pyLower r.content))
        + 2 * interCount (pySplitWs (pyLower query)) (pySplitWs (pyLower r.title))) ∧
    List.Pairwise (fun a b => b.score ≤ a.score) (keyword_search query docs k) ∧
    (∀ s, (sortDesc (scoredList query docs)).filter (fun d => d.score = s)
        = (scoredList query docs).filter (fun d => d.score = s)) := by
  have heq : keyword_search query docs k = (sortDesc (scoredList query docs)).take k := by
    by_cases hd : docs = []
    · simp [keyword_search, hd, scoredList, sortDesc]
    · rw [keyword_search, if_neg hd]
  have hmem : ∀ r ∈ keyword_search query docs k,
      ∃ d ∈ docs, r = mkScored query d ∧ keywordScore query d > 0 := by
    intro r hr
    rw [heq] at hr
    have hr₂ : r ∈ sortDesc (scoredList query docs) :=
      List.mem_of_mem_take hr
    have hr₃ : r ∈ scoredList query docs := mem_sortDesc.mp hr₂
    rw [scoredList] at hr₃
    rcases List.mem_map.mp hr₃ with ⟨d, hd, hrd⟩
    rcases List.mem_filter.mp hd with ⟨hddocs, hdpos⟩
    refine ⟨d, hddocs, hrd.symm, ?_⟩
    exact of_decide_eq_true hdpos
  refine ⟨?_, heq, ?_, ?_, ?_, ?_, fun s => sortDesc_stable s _⟩
  · rw [heq, List.length_take]
    exact Nat.min_le_left _ _
  · intro r hr
    rcases hmem r hr with ⟨d, _, hrd, hpos⟩
    rw [hrd]
    exact hpos
  · intro r hr
    rcases hmem r hr with ⟨d, hd, hrd, _⟩
    exact ⟨d, hd, hrd⟩
  · intro r hr
    rcases hmem r hr with ⟨d, _, hrd, _⟩
    rw [hrd]
    rfl
  · rw [heq]
    exact List.Pairwise.sublist (List.take_sublist _ _) (sortDesc_pairwise _)

/-- C6 witness: on a concrete corpus, a positively scored result heads the
output of the keyword search. -/
theorem C6_witness :
    (keyword_search "havas" [KDoc.mk "havas services info" "havas" "d.json" "" ""] 2).length
      ≤ 2 ∧
    (mkScored "havas" (KDoc.mk "havas services info" "havas" "d.json" "" "")).score > 0 :=
  ⟨(C6_keyword_search "havas" [KDoc.mk "havas services info" "havas" "d.json" "" ""] 2).1,
    (C6_keyword_search "havas" [KDoc.mk "havas services info" "havas" "d.json" "" ""] 2).2.2.1
      (mkScored "havas" (KDoc.mk "havas services info" "havas" "d.json" "" ""))
      (by decide)⟩

/-! ## Claim C4 — the retrieval fallback chain -/

/-- C4 counterexample: the remote client is enabled but its transport fails,
and the local keyword level would succeed on the same corpus; yet the agent's
pipeline — which consults only `AzureSearchClient` — reports zero documents.
A failure at the remote level therefore does not fall back to the next
level, and an empty result does not imply that all levels failed. -/
theorem C4_counterexample :
    azure_search (AzureEnv.mk true "idx" (.error "timeout")) "havas" 15 = [] ∧
    vector_search
        (VectorEnv.mk true (.error "unused") (.ok ())
          [KDoc.mk "havas services info" "havas" "d.json" "" ""]) "havas" 15 ≠ [] ∧
    (tv_process_message (AzureEnv.mk true "idx" (.error "timeout")) []
        (fun _ => .ok (.objContent (.str "hi"))) emptyMemStore
        "havas" "s1" "t0" "t1" 0).2.documentsFound? = some 0 := by
  decide

/-- C4 amended: within `VectorDocumentSearch`, keyword mode and any
vector-store failure divert to `_keyword_search`, whose own failure yields
`[]`; `AzureSearchClient.search` converts a transport/parsing failure, a
non-200 status, or a missing configuration into `[]` without raising; but the
agent pipeline consults only the Azure client, so its reported document
count is exactly the Azure result count (or 0 when uploaded files supplied
the context) — a remote failure yields an empty result without any fallback
to the local levels. -/
theorem C4_amended (venv : VectorEnv) (az : AzureEnv) (query : String) (k : Nat)
    (m : String) :
    (venv.useKeyword = true → vector_search venv query k = keyword_search_safe venv query k) ∧
    (venv.vectorOutcome = .error m → vector_search venv query k = keyword_search_safe venv query k) ∧
    (venv.kwOutcome = .error m → keyword_search_safe venv query k = []) ∧
    (az.response = .error m → azure_search az query k = []) ∧
    (az.enabled = false → azure_search az query k = []) ∧
    (∀ (files : List FileEntry) (llm : List PMsg → Except String RawResult)
        (mem : MemStore) (message sid t1 t2 : String) (pt : Nat),
      (tv_process_message az files llm mem message sid t1 t2 pt).2.documentsFound?
        = some (if buildFileContent files ≠ "" then 0 else (azure_search az message 15).length)) := by
  refine ⟨?_, ?_, ?_, ?_, ?_, ?_⟩
  · intro h
    rw [vector_search, if_pos h]
  · intro h
    rw [vector_search]
    split
    · rfl
    · rw [h]
  · intro h
    rw [keyword_search_safe, h]
  · intro h
    rw [azure_search, h]
    split
    · rfl
    · rfl
  · intro h
    rw [azure_search, h]
    simp
  · intro files llm mem message sid t1 t2 pt
    rw [tv_process_message]
    simp only [TVResult.documentsFound?]
    split
    · next h => simp [h]
    · next h => simp [h]

/-- C4 witness: the amended theorem at a failing remote client and a
keyword-mode local environment. -/
theorem C4_witness :
    vector_search
        (VectorEnv.mk true (.error "down") (.ok ())
          [KDoc.mk "havas services info" "havas" "d.json" "" ""]) "q" 5
      = keyword_search_safe
          (VectorEnv.mk true (.error "down") (.ok ())
            [KDoc.mk "havas services info" "havas" "d.json" "" ""]) "q" 5 ∧
    azure_search (AzureEnv.mk true "idx" (.error "boom")) "q" 5 = [] :=
  ⟨(C4_amended
      (VectorEnv.mk true (.error "down") (.ok ())
        [KDoc.mk "havas services info" "havas" "d.json" "" ""])
      (AzureEnv.mk true "idx" (.error "boom")) "q" 5 "boom").1 rfl,
    (C4_amended
      (VectorEnv.mk true (.error "down") (.ok ())
        [KDoc.mk "havas services info" "havas" "d.json" "" ""])
      (AzureEnv.mk true "idx" (.error "boom")) "q" 5 "boom").2.2.2.1 rfl⟩

/-! ## Claim C5 — behaviour of the pipeline when the model invocation fails -/

/-- C5 counterexample: with a provider that raises, `process_message` still
returns a Done-style success record (the apology as `response`) and records
the exchange in memory — the pipeline does not transition to an Errored
terminal state. -/
theorem C5_counterexample :
    (tv_process_message (AzureEnv.mk false "idx" (.error "x")) []
        (fun _ => .error "boom") emptyMemStore "hola" "s1" "t0" "t1" 0).2.isDone = true ∧
    (tv_process_message (AzureEnv.mk false "idx" (.error "x")) []
        (fun _ => .error "boom") emptyMemStore "hola" "s1" "t0" "t1" 0).2.response?
      = some tvMsgTech ∧
    get_conversation_history
        (tv_process_message (AzureEnv.mk false "idx" (.error "x")) []
          (fun _ => .error "boom") emptyMemStore "hola" "s1" "t0" "t1" 0).1 "s1"
      = [Entry.mk "hola" tvMsgTech "t0"] := by
  decide

/-- C5 amended: when the model invocation raises, `_generate_response`
catches the exception and returns its fixed apology string; the pipeline then
continues normally — the exchange `(message, apology)` is appended to memory
and a Done-style result record carrying the apology is produced. The Errored
record arises only from exceptions outside `_generate_response`. -/
theorem C5_amended (az : AzureEnv) (files : List FileEntry) (mem : MemStore)
    (llm : List PMsg → Except String RawResult) (e message sid t1 t2 : String) (pt : Nat)
    (h : ∀ msgs, llm msgs = .error e) :
    (tv_process_message az files llm mem message sid t1 t2 pt).2.isDone = true ∧
    (tv_process_message az files llm mem message sid t1 t2 pt).2.response?
      = some (tvHandleError e) ∧
    (tv_process_message az files llm mem message sid t1 t2 pt).1
      = add_message mem sid message (tvHandleError e) t1 ∧
    get_conversation_history
        (tv_process_message az files llm mem message sid t1 t2 pt).1 sid
      = (get_conversation_history mem sid ++ [Entry.mk message (tvHandleError e) t1]).drop
          ((get_conversation_history mem sid ++ [Entry.mk message (tvHandleError e) t1]).length - 10) := by
  have hresp : ∀ msgs, tv_generate_response (llm msgs) = tvHandleError e := by
    intro msgs
    rw [h msgs, tv_generate_response]
  refine ⟨?_, ?_, ?_, ?_⟩
  · rw [tv_process_message]
    rfl
  · rw [tv_process_message]
    simp only [TVResult.response?, hresp]
  · rw [tv_process_message]
    simp only [hresp]
  · rw [tv_process_message]
    simp only [hresp]
    exact hist_add mem sid message (tvHandleError e) t1

/-- C5 witness: the amended theorem at a concrete failing provider. -/
theorem C5_witness :
    (tv_process_message (AzureEnv.mk false "i" (.error "x")) []
        (fun _ => .error "boom") emptyMemStore "hola" "s" "t0" "t1" 0).2.response?
      = some (tvHandleError "boom") :=
  (C5_amended (AzureEnv.mk false "i" (.error "x")) [] emptyMemStore
    (fun _ => .error "boom") "boom" "hola" "s" "t0" "t1" 0 (fun _ => rfl)).2.1

/-! ## Claim C8 — no internal exception text in the failure record -/

/-- C8 counterexample: the failure record returned at the `process_message`
boundary carries the exception text `str(e)` verbatim in its `details`
field, so that record does include internal exception text. -/
theorem C8_counterexample :
    (tv_process_message_outcome (some "ZeroDivisionError: division by zero")
        (AzureEnv.mk false "i" (.error "x")) [] (fun _ => .ok .otherShape)
        emptyMemStore "hola" "s1" "t0" "t1" 0).details?
      = some "ZeroDivisionError: division by zero" ∧
    (tv_process_message_outcome (some "ZeroDivisionError: division by zero")
        (AzureEnv.mk false "i" (.error "x")) [] (fun _ => .ok .otherShape)
        emptyMemStore "hola" "s1" "t0" "t1" 0).error?
      = some "Internal server error" := by
  decide

/-- C8 amended: `process_message` converts an unexpected exception to
`{'error': 'Internal server error', 'details': str(e)}` — the exception text
is present at that boundary; it is the HTTP `chat` handler that converts any
error result to a 500 payload consisting only of the fixed
`'Internal server error'` string and a timestamp, so the user-facing HTTP
payload carries no exception text (it is the same for every exception). -/
theorem C8_amended (e ts t' m0 sid : String) (mem0 mem1 : MemStore)
    (run : String → String → MemStore × TVResult)
    (hm : pyStrip m0 ≠ "")
    (hrun : run (pyStrip m0) sid = (mem1, tv_error_record e t')) :
    (tv_error_record e t').details? = some e ∧
    (tv_error_record e t').error? = some "Internal server error" ∧
    (chat (some (ChatRequest.mk (some m0) (some sid))) run mem0 ts).2
      = .serverError "Internal server error" ts := by
  refine ⟨rfl, rfl, ?_⟩
  rw [chat]
  simp only [Option.getD_some]
  rw [if_neg hm, hrun]
  rfl

/-- C8 witness: the amended theorem at a concrete exception text. -/
theorem C8_witness :
    (chat (some (ChatRequest.mk (some "hola") (some "s1")))
        (fun _ _ => (emptyMemStore, tv_error_record "boom" "t1"))
        emptyMemStore "ts").2
      = .serverError "Internal server error" "ts" :=
  (C8_amended "boom" "ts" "t1" "hola" "s1" emptyMemStore emptyMemStore
    (fun _ _ => (emptyMemStore, tv_error_record "boom" "t1"))
    (by decide) rfl).2.2

/-! ## Claim C9 — empty-message handling -/

/-- C9 counterexample: calling the agent's `process_message` directly with an
empty message runs the whole pipeline — it produces a Done-style record and
appends the exchange to memory, with no ValidationError-class rejection. -/
theorem C9_counterexample :
    (tv_process_message (AzureEnv.mk false "i" (.error "x")) []
        (fun _ => .ok (.objContent (.str "hi"))) emptyMemStore "" "s1" "t0" "t1" 0).2.isDone
      = true ∧
    (tv_process_message (AzureEnv.mk false "i" (.error "x")) []
        (fun _ => .ok (.objContent (.str "hi"))) emptyMemStore "" "s1" "t0" "t1" 0).2.response?
      = some "hi" ∧
    get_conversation_history
        (tv_process_message (AzureEnv.mk false "i" (.error "x")) []
          (fun _ => .ok (.objContent (.str "hi"))) emptyMemStore "" "s1" "t0" "t1" 0).1 "s1"
      = [Entry.mk "" "hi" "t0"] := by
  decide

/-- C9 amended: the empty-message rejection lives in the HTTP `chat` handler,
not in the agent: a request whose message strips to empty is answered with
the 400 rejection `'Message cannot be empty'` with the memory untouched and
without invoking the agent (the outcome is the same for every possible agent
`run`); the agent's own `process_message` performs no such validation and
runs the pipeline even on an empty message. -/
theorem C9_amended (req : ChatRequest) (m0 : String) (mem0 : MemStore) (ts : String)
    (h : req.message = some m0) (he : pyStrip m0 = "") :
    (∀ run, chat (some req) run mem0 ts = (mem0, .badRequest "Message cannot be empty")) ∧
    (∀ (az : AzureEnv) (files : List FileEntry) (llm : List PMsg → Except String RawResult)
        (mem : MemStore) (sid t1 t2 : String) (pt : Nat),
      (tv_process_message az files llm mem "" sid t1 t2 pt).2.isDone = true) := by
  constructor
  · intro run
    rw [chat, h]
    simp [he]
  · intro az files llm mem sid t1 t2 pt
    rw [tv_process_message]
    rfl

/-- C9 witness: the amended theorem at a whitespace-only message and an
arbitrary concrete agent. -/
theorem C9_witness :
    chat (some (ChatRequest.mk (some "   ") (some "s")))
        (fun _ _ => (emptyMemStore, tv_error_record "x" "t")) emptyMemStore "t"
      = (emptyMemStore, .badRequest "Message cannot be empty") :=
  (C9_amended (ChatRequest.mk (some "   ") (some "s")) "   " emptyMemStore "t"
    rfl (by decide)).1
    (fun _ _ => (emptyMemStore, tv_error_record "x" "t"))

/-! ## Claim C10 — session-prefixed file names -/

/-- A successful initial-segment check exposes the tail. -/
lemma isPre_extract : ∀ (p l : List Char), isPre p l = true → ∃ t, l = p ++ t
  | [], l, _ => ⟨l, rfl⟩
  | a :: ps, [], h => by simp [isPre] at h
  | a :: ps, b :: ls, h => by
    rw [isPre, Bool.and_eq_true, beq_iff_eq] at h
    rcases isPre_extract ps ls h.2 with ⟨t, ht⟩
    exact ⟨t, by rw [ht, h.1, List.cons_append]⟩

/-- Containment is preserved when material is prepended. -/
lemma contains_append_right (l₁ l₂ : List Char) (c : Char)
    (h : l₂.contains c = true) : (l₁ ++ l₂).contains c = true := by
  have hm : c ∈ l₂ := List.mem_of_elem_eq_true h
  exact List.elem_eq_true_of_mem (List.mem_append_right l₁ hm)

/-- The loop of `get_session_files` collects exactly the prefixed entries
when every prefixed stored name has a dotted remainder (so the IndexError
abort never fires). -/
lemma gsf_loop_eq (sid : String) :
    ∀ (store : FileStore) (acc : List FileInfoR),
      (∀ pr ∈ store, strStarts pr.1 (sid ++ "_") = true →
          hasDot (strDrop pr.1 (sid ++ "_").length) = true) →
      get_session_files_loop sid store acc
        = acc ++ (store.filter (fun pr => strStarts pr.1 (sid ++ "_"))).map
            (fun pr => FileInfoR.mk (strDrop pr.1 (sid ++ "_").length) pr.1
              (pyLower (afterLastDot (strDrop pr.1 (sid ++ "_").length))) pr.2 sid)
  | [], acc, _ => by simp [get_session_files_loop]
  | (n, sz) :: rest, acc, hW => by
    simp only [get_session_files_loop]
    by_cases hs : strStarts n (sid ++ "_") = true
    · rw [if_pos hs]
      have hdot := hW (n, sz) (List.mem_cons_self _ _) hs
      rw [if_pos hdot,
        gsf_loop_eq sid rest _ (fun pr hpr => hW pr (List.mem_cons_of_mem _ hpr)),
        List.filter_cons_of_pos (by exact hs), List.map_cons]
      simp [List.append_assoc]
    · rw [if_neg hs,
        gsf_loop_eq sid rest acc (fun pr hpr => hW pr (List.mem_cons_of_mem _ hpr)),
        List.filter_cons_of_neg (by simpa using hs)]

/-- C10: `get_session_files(s)` lists exactly the stored names that start
with `s ++ "_"`; since `save_file` stores a file of session `t` as
`t ++ "_" ++ filename`, whenever `t` itself starts with `s ++ "_"`, the
saved name also starts with `s ++ "_"`, so it is listed under session `s`
and removed by `clear_session_files s` — listing is not restricted to files
uploaded by that session.  The well-formedness hypothesis `hW` states that
every stored name carrying the `s ++ "_"` prefix has a dot after the prefix,
which holds for every name produced by `save_file` (its filenames pass
`allowed_file`). -/
theorem C10_session_files (store : FileStore) (s t fname : String) (size : Nat)
    (hW : ∀ pr ∈ store, strStarts pr.1 (s ++ "_") = true →
        hasDot (strDrop pr.1 (s ++ "_").length) = true)
    (hT : strStarts t (s ++ "_") = true)
    (hF : allowed_file fname = true) :
    ((get_session_files store s).map FileInfoR.file_path
      = (store.filter (fun pr => strStarts pr.1 (s ++ "_"))).map Prod.fst) ∧
    strStarts (uniqueName t fname) (s ++ "_") = true ∧
    (uniqueName t fname)
      ∈ (get_session_files (store ++ [(uniqueName t fname, size)]) s).map
          FileInfoR.file_path ∧
    (∀ sz, (uniqueName t fname, sz)
        ∉ clear_session_files (store ++ [(uniqueName t fname, size)]) s) := by
  rcases isPre_extract (s ++ "_").data t.data hT with ⟨r0, hr0⟩
  have hdata : (uniqueName t fname).data
      = (s ++ "_").data ++ (r0 ++ ('_' :: fname.data)) := by
    rw [uniqueName, String.data_append, String.data_append, hr0]
    simp [List.append_assoc]
  have hb : strStarts (uniqueName t fname) (s ++ "_") = true := by
    rw [strStarts, hdata]
    exact isPre_self_append _ _
  have hdotf : hasDot fname = true := by
    rw [allowed_file, Bool.and_eq_true] at hF
    exact hF.1
  have hdropnew : strDrop (uniqueName t fname) (s ++ "_").length
      = ⟨r0 ++ ('_' :: fname.data)⟩ := by
    rw [strDrop, hdata, str_length_data, List.drop_left]
  have hdotnew : hasDot (strDrop (uniqueName t fname) (s ++ "_").length) = true := by
    rw [hdropnew, hasDot]
    exact contains_append_right r0 _ '.'
      (contains_append_right ['_'] fname.data '.' hdotf)
  have hW' : ∀ pr ∈ store ++ [(uniqueName t fname, size)],
      strStarts pr.1 (s ++ "_") = true →
      hasDot (strDrop pr.1 (s ++ "_").length) = true := by
    intro pr hpr hs'
    rcases List.mem_append.mp hpr with hin | hnew
    · exact hW pr hin hs'
    · rw [List.mem_singleton] at hnew
      rw [hnew]
      exact hdotnew
  have hlistA : (get_session_files store s).map FileInfoR.file_path
      = (store.filter (fun pr => strStarts pr.1 (s ++ "_"))).map Prod.fst := by
    rw [get_session_files, gsf_loop_eq s store [] hW, List.nil_append, List.map_map]
    rfl
  have hlistB : (get_session_files (store ++ [(uniqueName t fname, size)]) s).map
        FileInfoR.file_path
      = ((store ++ [(uniqueName t fname, size)]).filter
          (fun pr => strStarts pr.1 (s ++ "_"))).map Prod.fst := by
    rw [get_session_files, gsf_loop_eq s _ [] hW', List.nil_append, List.map_map]
    rfl
  have hmem : (uniqueName t fname)
      ∈ (get_session_files (store ++ [(uniqueName t fname, size)]) s).map
          FileInfoR.file_path := by
    rw [hlistB, List.filter_append, List.filter_singleton]
    have hpair : strStarts (uniqueName t fname, size).1 (s ++ "_") = true := hb
    simp only [hpair, cond_true, List.map_append, List.map_singleton]
    exact List.mem_append_right _ (List.mem_singleton.mpr rfl)
  refine ⟨hlistA, hb, hmem, ?_⟩
  intro sz hin
  have hcontains : ((get_session_files (store ++ [(uniqueName t fname, size)]) s).map
      FileInfoR.file_path).contains (uniqueName t fname) = true :=
    List.elem_eq_true_of_mem hmem
  rw [clear_session_files] at hin
  rcases List.mem_filter.mp hin with ⟨_, hpred⟩
  rw [hcontains] at hpred
  simp at hpred

/-- C10 witness: the theorem at session ids `"a"` and `"a_b"` with a fresh
store. -/
theorem C10_witness :
    strStarts (uniqueName "a_b" "f.pdf") ("a" ++ "_") = true ∧
    (uniqueName "a_b" "f.pdf")
      ∈ (get_session_files ([] ++ [(uniqueName "a_b" "f.pdf", 1)]) "a").map
          FileInfoR.file_path :=
  ⟨(C10_session_files [] "a" "a_b" "f.pdf" 1 (by simp) (by decide) (by decide)).2.1,
    (C10_session_files [] "a" "a_b" "f.pdf" 1 (by simp) (by decide) (by decide)).2.2.1⟩

end AgenteHR
